import Mathlib

/-!
Verification development for the WFC (wave function collapse) tile map
generator.  The Rust sources are shallowly embedded:

* `Grid` models `src/collections/grid.rs` (`Grid<T> = Vec<Vec<Option<T>>>`);
  the solver keeps every cell `Some`, so cells are stored directly.  The
  iterator `Iter::next` of that file is modelled faithfully by
  `Grid.iterStep` / `Grid.iterCollect`, including its behaviour of never
  advancing past the first row.
* Namespace `Gen` models `src/utility/generation/tile.rs` and
  `src/utility/generation/wfc.rs` (the `P`-parameterised implementation).
* Namespace `Legacy` models `src/utility/wfc.rs` and `src/utility/grid.rs`.
* The global thread-local PRNG (`rand::thread_rng`) is modelled by an
  explicit stream of naturals (`Rng`); `gen_range(0..n)` consumes one value
  and reduces it mod `n`, and `WeightedIndex` sampling draws one value
  below the total weight and walks the cumulative weights.

Machine integers (`usize`) are modelled by `Nat`; the only overflow-aware
operations in the sources are `saturating_sub`/`saturating_add`, and `Nat`
subtraction is already saturating.
-/

namespace Grid

/-- A grid index `(x, y)`, as in `src/collections/grid.rs`. -/
abbrev Idx := Nat × Nat

/-- Rows of cells; row `y` holds the cells `(0, y) .. (w-1, y)`. -/
abbrev GridL (α : Type) := List (List α)

/-- `Grid::width`: length of row 0, or `0` when there are no rows. -/
def width (g : GridL α) : Nat := (g.headD []).length

/-- `Grid::height`: the number of rows. -/
def height (g : GridL α) : Nat := g.length

/-- `Grid::includes`: the index is inside the rectangle. -/
def includes (g : GridL α) (p : Idx) : Prop := p.1 < width g ∧ p.2 < height g

instance (g : GridL α) (p : Idx) : Decidable (includes g p) := by
  unfold includes; infer_instance

/-- `Grid::get`: bounds-checked cell lookup. -/
def get (g : GridL α) (p : Idx) : Option α :=
  if includes g p then (g.get? p.2).bind (fun r => r.get? p.1) else none

/-- Writing through `Grid::get_mut`: replace the cell at `p` (no-op when out
of bounds, the source surfaces that case as an error before writing). -/
def setC (g : GridL α) (p : Idx) (v : α) : GridL α :=
  if includes g p then g.set p.2 ((g.getD p.2 []).set p.1 v) else g

/-- `Grid::new` followed by `fill` (`Grid::new_with`): `h` rows of `w`
copies of `v`. -/
def newWith (w h : Nat) (v : α) : GridL α :=
  List.replicate h (List.replicate w v)

/-- `Grid::enumerate`: every cell with its position, row-major. -/
def enumerate (g : GridL α) : List (Idx × α) :=
  g.enum.flatMap (fun yr => yr.2.enum.map (fun xv => ((xv.1, yr.1), xv.2)))

/-- One call of `Iter::next` from `src/collections/grid.rs`, faithfully:
the guard requires `x < width ∧ y < height`, and the inner branch again
tests `x < width` (which always holds under the guard, so the row index is
never advanced). -/
def iterStep (g : GridL α) (ix : Nat × Nat) : Option (Option α × (Nat × Nat)) :=
  if ix.1 < width g ∧ ix.2 < height g then
    let ix' := if ix.1 < width g then (ix.1 + 1, ix.2) else (0, ix.2 + 1)
    some ((g.get? ix.2).bind (fun r => r.get? ix.1), ix')
  else none

/-- Exhaust the iterator (with fuel), collecting the yielded cells. -/
def iterCollect : Nat → (Nat × Nat) → GridL α → List α
  | 0, _, _ => []
  | fuel + 1, ix, g =>
    match iterStep g ix with
    | none => []
    | some (v, ix') =>
      match v with
      | some a => a :: iterCollect fuel ix' g
      | none => []

/-- `Grid::iter` run to completion: `width + 1` steps exhaust it. -/
def gridIter (g : GridL α) : List α := iterCollect (width g + 1) (0, 0) g

/-- `Generator::adjacent` (identical in both implementations): the four
saturating offsets, filtered to drop the centre and out-of-bounds entries. -/
def adjacent (g : GridL α) (p : Idx) : List Idx :=
  (([(p.1 - 1, p.2), (p.1 + 1, p.2), (p.1, p.2 - 1), (p.1, p.2 + 1)].filter
      (fun c => decide (c ≠ p))).filter
      (fun c => decide (c.1 < width g))).filter
      (fun c => decide (c.2 < height g))

/-- Total number of variants over all cells of a grid of candidate lists
(the resource measure of the propagation loop). -/
def totalLen (g : GridL (List α)) : Nat :=
  (g.map (fun r => (r.map List.length).sum)).sum

end Grid

/-- `Vec::dedup`: drop consecutive repeated elements (auxiliary pass). -/
def dedupAux [DecidableEq α] (prev : α) : List α → List α
  | [] => []
  | b :: rest => if b = prev then dedupAux prev rest else b :: dedupAux b rest

/-- `Vec::dedup`: keep the first element of every run of consecutive equals. -/
def dedupConsec [DecidableEq α] : List α → List α
  | [] => []
  | a :: rest => a :: dedupAux a rest

/-- The thread-local PRNG, modelled as the stream of values it produces. -/
abbrev Rng := List Nat

/-- `thread_rng().gen_range(0..n)`: consume one stream value, reduce mod `n`. -/
def genRange (n : Nat) : Rng → Nat × Rng
  | [] => (0, [])
  | r :: rest => (r % n, rest)

/-- `WeightedIndex` sampling: given a draw `r` below the total weight, pick
the first index whose cumulative weight exceeds `r`. -/
def pickIndex : List Nat → Nat → Nat
  | [], _ => 0
  | w :: ws, r => if r < w then 0 else pickIndex ws (r - w) + 1


namespace Gen

/-! Model of `src/utility/generation/tile.rs`.  The socket array
`[Socket<P>; 4]` is indexed `Top = 0, Left = 1, Right = 2, Bottom = 3`; it
is modelled by the structure `Sockets` whose fields appear in that order,
and `Vec::rotate_right`/`swap` become the corresponding field shuffles. -/

/-- `Side` (generation flavour): `Top = 0, Left = 1, Right = 2, Bottom = 3`. -/
inductive Side where
  | top
  | left
  | right
  | bottom
deriving DecidableEq

/-- `Side::opposite`. -/
def Side.opposite : Side → Side
  | .top => .bottom
  | .left => .right
  | .right => .left
  | .bottom => .top

/-- `Side::relative_x` (generation flavour): `start > end` gives `Right`. -/
def Side.relativeX (s e : Nat) : Side := if s > e then .right else .left

/-- `Side::relative_y` (generation flavour): `start > end` gives `Bottom`. -/
def Side.relativeY (s e : Nat) : Side := if s > e then .bottom else .top

/-- `Side::relative`. -/
def Side.relative (s e : Nat × Nat) : Side :=
  if s.1 = e.1 then Side.relativeY s.2 e.2 else Side.relativeX s.1 e.1

/-- `Rotation`: clockwise quarter turns `D0..D270`. -/
inductive Rotation where
  | d0
  | d90
  | d180
  | d270
deriving DecidableEq

/-- `Rotation::D0.into_iter()`: the four rotations starting at `D0`. -/
def Rotation.all : List Rotation := [.d0, .d90, .d180, .d270]

/-- `Socket<P>`: the `P` node values of one edge (`P` is implicit in the
list length). -/
abbrev Socket := List Nat

/-- `Socket::reversed`. -/
def Socket.reversed (s : Socket) : Socket := s.reverse

/-- The socket array `[Socket<P>; 4]` in index order top, left, right,
bottom. -/
structure Sockets where
  t : Socket
  l : Socket
  r : Socket
  b : Socket
deriving DecidableEq

/-- `sockets.rotate_right(k)` on the 4-array, per rotation value. -/
def Sockets.rotRight (s : Sockets) : Rotation → Sockets
  | .d0 => s
  | .d90 => ⟨s.b, s.t, s.l, s.r⟩
  | .d180 => ⟨s.r, s.b, s.t, s.l⟩
  | .d270 => ⟨s.l, s.r, s.b, s.t⟩

/-- `Transform(Rotation, bool, bool)`. -/
structure Transform where
  rotation : Rotation
  flipX : Bool
  flipY : Bool
deriving DecidableEq

/-- `Tile<P>`: `((id, layer), [Socket; 4], weight)`. -/
structure Tile where
  id : Nat
  layer : Nat
  sockets : Sockets
  weight : Nat
deriving DecidableEq

/-- `Tile::socket_on`. -/
def Tile.socketOn (t : Tile) : Side → Socket
  | .top => t.sockets.t
  | .left => t.sockets.l
  | .right => t.sockets.r
  | .bottom => t.sockets.b

/-- `Tile::connects_to`: equal layers, and this tile's socket on `side`
equals the other tile's socket on the opposite side. -/
def Tile.connectsTo (a b : Tile) (side : Side) : Bool :=
  decide (a.layer = b.layer) && decide (a.socketOn side = b.socketOn side.opposite)

/-- `TransformedTile<P>`: a base tile plus a transform. -/
structure TransformedTile where
  tile : Tile
  transform : Transform
deriving DecidableEq

/-- `TransformedTile::flipped`: `flip_x` first (swap left/right, reverse
top and bottom), then `flip_y` (swap top/bottom, reverse left and right). -/
def TransformedTile.flipped (tt : TransformedTile) : Tile :=
  let s0 := tt.tile.sockets
  let s1 := if tt.transform.flipX then
      Sockets.mk s0.t.reversed s0.r s0.l s0.b.reversed
    else s0
  let s2 := if tt.transform.flipY then
      Sockets.mk s1.b s1.l.reversed s1.r.reversed s1.t
    else s1
  { tt.tile with sockets := s2 }

/-- `TransformedTile::rotated`: rotate the socket array right by the
transform's rotation. -/
def TransformedTile.rotated (tt : TransformedTile) : Tile :=
  { tt.tile with sockets := tt.tile.sockets.rotRight tt.transform.rotation }

/-- `TransformedTile::transformed`: flips applied first, then the rotation. -/
def TransformedTile.transformed (tt : TransformedTile) : Tile :=
  TransformedTile.rotated ⟨tt.flipped, tt.transform⟩

/-- The 16 transformed tiles pushed by `TileSet::add_tile`, in push order:
rotations `D0, D90, D180, D270` outermost, and for each rotation the flip
pairs `(false,false), (true,false), (false,true), (true,true)`. -/
def addTileTiles (t : Tile) : List TransformedTile :=
  Rotation.all.flatMap (fun r =>
    [⟨t, ⟨r, false, false⟩⟩, ⟨t, ⟨r, true, false⟩⟩,
     ⟨t, ⟨r, false, true⟩⟩, ⟨t, ⟨r, true, true⟩⟩])

/-- `Error` from `src/utility/generation/wfc.rs`. -/
inductive Error where
  | emptySet
  | invalidIndex
  | invalidWeight
  | missingSet
  | missingTile
deriving DecidableEq

end Gen

namespace Legacy

/-! Model of `src/utility/wfc.rs`.  Here the socket array is indexed
`Left = 0, Top = 1, Right = 2, Bottom = 3`, tiles embed their transform as
fields, and `transformed` applies the rotation first and the flips second. -/

/-- `Side` (legacy flavour): `Left = 0, Top = 1, Right = 2, Bottom = 3`. -/
inductive Side where
  | left
  | top
  | right
  | bottom
deriving DecidableEq

/-- `Side::opposite`. -/
def Side.opposite : Side → Side
  | .left => .right
  | .top => .bottom
  | .right => .left
  | .bottom => .top

/-- `Side::relative_x` (legacy flavour): `start > end` gives `Left`. -/
def Side.relativeX (s e : Nat) : Side := if s > e then .left else .right

/-- `Side::relative_y` (legacy flavour): `start > end` gives `Top`. -/
def Side.relativeY (s e : Nat) : Side := if s > e then .top else .bottom

/-- `Side::relative`. -/
def Side.relative (s e : Nat × Nat) : Side :=
  if s.1 = e.1 then Side.relativeY s.2 e.2 else Side.relativeX s.1 e.1

/-- `Rotation`: `None = 0, Once = 1, Twice = 2, Thrice = 3`. -/
inductive Rotation where
  | none
  | once
  | twice
  | thrice
deriving DecidableEq

/-- `Node(id, layer)`. -/
structure Node where
  id : Nat
  layer : Nat
deriving DecidableEq

/-- `Socket(left, center, right)`: three nodes. -/
structure Socket where
  l : Node
  c : Node
  r : Node
deriving DecidableEq

/-- `Socket::flipped`: swap the outer nodes. -/
def Socket.flipped (s : Socket) : Socket := ⟨s.r, s.c, s.l⟩

/-- The socket array `[Socket; 4]` in index order left, top, right, bottom. -/
structure Sockets where
  l : Socket
  t : Socket
  r : Socket
  b : Socket
deriving DecidableEq

/-- `sockets.rotate_right(k)` on the 4-array, per rotation value. -/
def Sockets.rotRight (s : Sockets) : Rotation → Sockets
  | .none => s
  | .once => ⟨s.b, s.l, s.t, s.r⟩
  | .twice => ⟨s.r, s.b, s.l, s.t⟩
  | .thrice => ⟨s.t, s.r, s.b, s.l⟩

/-- `Tile`: id, sockets, rotation, flips and weight as struct fields. -/
structure Tile where
  id : Nat
  sockets : Sockets
  rotation : Rotation
  flipX : Bool
  flipY : Bool
  weight : Nat
deriving DecidableEq

/-- `Tile::socket`. -/
def Tile.socket (t : Tile) : Side → Socket
  | .left => t.sockets.l
  | .top => t.sockets.t
  | .right => t.sockets.r
  | .bottom => t.sockets.b

/-- `Tile::rotated`: rotate the socket array right by `rotation`, then
clear the rotation. -/
def Tile.rotated (t : Tile) : Tile :=
  { t with sockets := t.sockets.rotRight t.rotation, rotation := .none }

/-- `Tile::flipped`: `flip_x` (swap left/right, flip top and bottom
sockets), then `flip_y` (swap top/bottom, flip left and right sockets),
clearing each flag. -/
def Tile.flipped (t : Tile) : Tile :=
  let s1 := if t.flipX then Sockets.mk t.sockets.r t.sockets.t.flipped
      t.sockets.l t.sockets.b.flipped else t.sockets
  let s2 := if t.flipY then Sockets.mk s1.l.flipped s1.b s1.r.flipped s1.t
    else s1
  { t with sockets := s2, flipX := false, flipY := false }

/-- `Tile::transformed`: the rotation is applied first, the flips second. -/
def Tile.transformed (t : Tile) : Tile := t.rotated.flipped

/-- `Tile::connects`: compare this tile's transformed socket on `side`
with the other tile's transformed socket on the opposite side. -/
def Tile.connects (a b : Tile) (side : Side) : Bool :=
  decide (a.transformed.socket side = b.transformed.socket side.opposite)

/-- `TileSet::connects`: some tile of the set connects to `tile` on `side`. -/
def setConnects (set : List Tile) (tile : Tile) (side : Side) : Bool :=
  set.any (fun t => t.connects tile side)

/-- `AsTiles::as_tiles`: the 16 tiles pushed before `dedup`, in push
order: rotation outermost (`None, Once, Twice, Thrice`), then `flip_x`,
then `flip_y` innermost. -/
def asTiles (id : Nat) (sockets : Sockets) (weight : Nat) : List Tile :=
  [Rotation.none, .once, .twice, .thrice].flatMap (fun r =>
    [false, true].flatMap (fun fx =>
      [false, true].map (fun fy => Tile.mk id sockets r fx fy weight)))

/-- `Error` from `src/utility/wfc.rs`. -/
inductive Error where
  | emptySet
  | invalidWeight
  | missingSet
  | missingTile
  | noValidSet
deriving DecidableEq

end Legacy

/-! The propagation worklist (`Generator::propogate`) is the same
algorithm in both implementations; it is modelled once, parameterised by
the compatibility test used to retain a neighbour's tile.  The stack is a
LIFO list with its top at the head (`Vec::push`/`Vec::pop` act on the
other end, which is order-isomorphic). -/

/-- The inner `for tile in other.clone()` loop of `propogate`: walk the
snapshot of the neighbour's candidate list; every tile failing `keep` is
removed from the live list (`retain`), and the neighbour `q` is pushed
once onto the stack if it is not already there. -/
def pruneCell [DecidableEq α] (keep : α → Bool) :
    List α → List α → List Grid.Idx → Grid.Idx → List α × List Grid.Idx
  | [], cell, stack, _ => (cell, stack)
  | t :: ts, cell, stack, q =>
    if keep t then pruneCell keep ts cell stack q
    else pruneCell keep ts (cell.filter (fun u => decide (u ≠ t)))
      (if q ∈ stack then stack else q :: stack) q

/-- The `for adjacent in self.adjacent(index)` loop of `propogate`:
process each neighbour in turn against the snapshot `S` of the popped
cell; a missing cell surfaces the implementation's `MissingSet` error. -/
def processAdj [DecidableEq α] (missing : ε)
    (compat : List α → Grid.Idx → Grid.Idx → α → Bool) (S : List α) (p : Grid.Idx) :
    List Grid.Idx → Grid.GridL (List α) → List Grid.Idx →
      Except ε (Grid.GridL (List α) × List Grid.Idx)
  | [], g, stack => .ok (g, stack)
  | q :: qs, g, stack =>
    match Grid.get g q with
    | none => .error missing
    | some cell =>
      let cs := pruneCell (fun t => compat S p q t) cell cell stack q
      processAdj missing compat S p qs (Grid.setC g q cs.1) cs.2

/-- The `while let Some(index) = stack.pop()` loop of `propogate`, with
fuel; `none` means the fuel ran out (never the case for the fuel chosen
below, see `propLoop_isSome_of_fuel`). -/
def propLoop [DecidableEq α] (missing : ε)
    (compat : List α → Grid.Idx → Grid.Idx → α → Bool) :
    Nat → List Grid.Idx → Grid.GridL (List α) → Nat →
      Option (Except ε (Grid.GridL (List α) × Nat))
  | _, [], g, loops => some (.ok (g, loops))
  | 0, _ :: _, _, _ => none
  | fuel + 1, p :: rest, g, loops =>
    match Grid.get g p with
    | none => some (.error missing)
    | some S =>
      match processAdj missing compat S p (Grid.adjacent g p) g rest with
      | .error e => some (.error e)
      | .ok gs => propLoop missing compat fuel gs.2 gs.1 (loops + 1)

namespace Gen

/-- `Generator<P>`: a grid of candidate lists (every cell of the source's
`Grid<Vec<TransformedTile<P>>>` stays `Some` throughout). -/
abbrev Generator := Grid.GridL (List TransformedTile)

/-- `Generator::new`: `dedup` the variants (consecutive structural
duplicates only) and fill a `width × height` grid with the result. -/
def Generator.new (w h : Nat) (tiles : List TransformedTile) : Generator :=
  Grid.newWith w h (dedupConsec tiles)

/-- `Generator::entropy`: sums candidate counts over `grid().iter()` —
which yields only the first row. -/
def Generator.entropy (g : Generator) : Nat :=
  ((Grid.gridIter g).map List.length).sum

/-- `Generator::is_collapsed`: all cells yielded by `grid().iter()` (the
first row only) hold exactly one candidate. -/
def Generator.isCollapsed (g : Generator) : Bool :=
  (Grid.gridIter g).all (fun v => v.length == 1)

/-- `Generator::is_any_empty`: some cell yielded by `grid().iter()` (the
first row only) is empty. -/
def Generator.isAnyEmpty (g : Generator) : Bool :=
  (Grid.gridIter g).any (fun v => v.isEmpty)

/-- `Generator::next_index`: among the non-collapsed cells (in the
row-major order of `Grid::enumerate`), find the minimal candidate count,
keep the tied cells, and draw one uniformly. -/
def Generator.nextIndex (g : Generator) (rng : Rng) : Except Error (Grid.Idx × Rng) :=
  let tiles := (Grid.enumerate g).filter (fun pv => decide (pv.2.length > 1))
  match (tiles.map (fun pv => pv.2.length)).minimum? with
  | none => .error .missingSet
  | some entropy =>
    let tied := tiles.filter (fun pv => pv.2.length == entropy)
    if tied.isEmpty then .error .missingSet
    else
      let ir := genRange tied.length rng
      match tied.get? ir.1 with
      | none => .error .missingSet
      | some pv => .ok (pv.1, ir.2)

/-- `Generator::collapse`: weighted draw over the cell's candidates (the
base tiles' weights), then keep only the drawn candidate
(`swap(0, index)` followed by `drain(1..)`). -/
def Generator.collapse (g : Generator) (pos : Grid.Idx) (rng : Rng) :
    Except Error (Generator × Rng) :=
  match Grid.get g pos with
  | none => .error .missingSet
  | some set =>
    if set.isEmpty then .error .emptySet
    else
      let weights := set.map (fun t => t.tile.weight)
      if weights.sum = 0 then .error .invalidWeight
      else
        let ir := genRange weights.sum rng
        match set.get? (pickIndex weights ir.1) with
        | none => .error .missingTile
        | some t => .ok (Grid.setC g pos [t], ir.2)

/-- The compatibility test of `Generator::propogate`: some tile of the
snapshot `S` connects (after transformation) to `t` on
`Side::relative(p, q)`. -/
def compat (S : List TransformedTile) (p q : Grid.Idx) (t : TransformedTile) : Bool :=
  S.any (fun s => s.transformed.connectsTo t.transformed (Side.relative p q))

/-- `Generator::propogate`, with fuel `totalLen + 2` (shown sufficient by
`propLoop_isSome_of_fuel`, which is the content of the termination claim). -/
def Generator.propogate (g : Generator) (pos : Grid.Idx) :
    Except Error (Generator × Nat) :=
  (propLoop Error.missingSet compat (Grid.totalLen g + 2) [pos] g 0).getD
    (.error .missingSet)

/-- A placeholder tile: indexing `s[0]` of an empty cell panics in the
source; the model returns this value instead (never reached on the runs
studied here). -/
def defaultTransformed : TransformedTile :=
  ⟨⟨0, 0, ⟨[], [], [], []⟩, 0⟩, ⟨.d0, false, false⟩⟩

/-- The success value of `run`:
`grid().clone().map_some(|s| s[0].transformed())`. -/
def Generator.finalGrid (g : Generator) : Grid.GridL Tile :=
  g.map (fun row => row.map (fun s => (s.headD defaultTransformed).transformed))

/-- `Generator::run` (the diagnostic printing and counters are elided),
with fuel for the outer `while !self.is_collapsed()` loop; `none` means
the fuel ran out. -/
def Generator.runFuel : Nat → Generator → Rng → Option (Except Error (Grid.GridL Tile))
  | 0, _, _ => none
  | fuel + 1, g, rng =>
    if g.isCollapsed then some (.ok g.finalGrid)
    else
      match g.nextIndex rng with
      | .error e => some (.error e)
      | .ok (pos, rng₁) =>
        match g.collapse pos rng₁ with
        | .error e => some (.error e)
        | .ok (g₁, rng₂) =>
          match g₁.propogate pos with
          | .error e => some (.error e)
          | .ok (g₂, _) =>
            if g₂.isAnyEmpty then some (.error .emptySet)
            else Generator.runFuel fuel g₂ rng₂

end Gen

namespace Legacy

/-- The legacy `Generator`: a grid of `TileSet`s. -/
abbrev Generator := Grid.GridL (List Tile)

/-- Legacy `Generator::new`: `dedup` the tiles and fill the grid. -/
def Generator.new (tiles : List Tile) (w h : Nat) : Generator :=
  Grid.newWith w h (dedupConsec tiles)

/-- The legacy grid's `iter()` (from `src/utility/grid.rs`) visits every
cell row-major with its position; `Grid.enumerate` is exactly that. -/
def Generator.isCollapsed (g : Generator) : Bool :=
  (Grid.enumerate g).all (fun pv => pv.2.length == 1)

/-- Legacy `Generator::is_any_empty` over the full row-major iterator. -/
def Generator.isAnyEmpty (g : Generator) : Bool :=
  (Grid.enumerate g).any (fun pv => pv.2.isEmpty)

/-- Legacy `Generator::entropy`. -/
def Generator.entropy (g : Generator) : Nat :=
  ((Grid.enumerate g).map (fun pv => pv.2.length)).sum

/-- Legacy `Generator::next_position`: non-collapsed cells (`len != 1`,
so empty cells are included), minimal length, tied cells, uniform draw. -/
def Generator.nextPosition (g : Generator) (rng : Rng) :
    Except Error (Grid.Idx × Rng) :=
  let tiles := (Grid.enumerate g).filter (fun pv => !(pv.2.length == 1))
  match (tiles.map (fun pv => pv.2.length)).minimum? with
  | none => .error .missingSet
  | some entropy =>
    let tied := tiles.filter (fun pv => pv.2.length == entropy)
    if tied.isEmpty then .error .noValidSet
    else
      let ir := genRange tied.length rng
      match tied.get? ir.1 with
      | none => .error .missingSet
      | some pv => .ok (pv.1, ir.2)

/-- Legacy `Generator::collapse`: weighted draw, then
`TileSet::collapse` (retain every copy equal to the drawn tile). -/
def Generator.collapse (g : Generator) (pos : Grid.Idx) (rng : Rng) :
    Except Error (Generator × Rng) :=
  match Grid.get g pos with
  | none => .error .missingSet
  | some set =>
    if set.isEmpty then .error .emptySet
    else
      let weights := set.map Tile.weight
      if weights.sum = 0 then .error .invalidWeight
      else
        let ir := genRange weights.sum rng
        match set.get? (pickIndex weights ir.1) with
        | none => .error .missingTile
        | some t =>
          .ok (Grid.setC g pos (set.filter (fun u => decide (u = t))), ir.2)

/-- The compatibility test of the legacy `Generator::propogate`:
`set.connects(tile, side)` with `side = Side::relative((x1,y1),(x2,y2))`. -/
def compat (S : List Tile) (p q : Grid.Idx) (t : Tile) : Bool :=
  setConnects S t (Side.relative p q)

/-- Legacy `Generator::propogate`, with provably sufficient fuel. -/
def Generator.propogate (g : Generator) (pos : Grid.Idx) :
    Except Error (Generator × Nat) :=
  (propLoop Error.missingSet compat (Grid.totalLen g + 2) [pos] g 0).getD
    (.error .missingSet)

/-- Legacy `Generator::step`: one observation, collapse and propagation;
afterwards `is_any_empty` (over the full grid) fails with `EmptySet`,
otherwise report whether the grid is collapsed. -/
def Generator.step (g : Generator) (rng : Rng) :
    Except Error (Bool × Generator × Rng) :=
  match g.nextPosition rng with
  | .error e => .error e
  | .ok (pos, rng₁) =>
    match g.collapse pos rng₁ with
    | .error e => .error e
    | .ok (g₁, rng₂) =>
      match g₁.propogate pos with
      | .error e => .error e
      | .ok (g₂, _) =>
        if g₂.isAnyEmpty then .error .emptySet
        else .ok (g₂.isCollapsed, g₂, rng₂)

end Legacy

/-- Following the spec's words (§4.4 step 1) on the legacy socket array:
`flip_x` mirrors across the vertical axis — swap `Left ↔ Right` and
replace `Top`/`Bottom` by their reversed copies. -/
def specFlipXL (s : Legacy.Sockets) (fx : Bool) : Legacy.Sockets :=
  if fx then ⟨s.r, s.t.flipped, s.l, s.b.flipped⟩ else s

/-- Following the spec's words (§4.4 step 2) on the legacy socket array:
`flip_y` swaps `Top ↔ Bottom` and reverses `Left`/`Right`. -/
def specFlipYL (s : Legacy.Sockets) (fy : Bool) : Legacy.Sockets :=
  if fy then ⟨s.l.flipped, s.b, s.r.flipped, s.t⟩ else s

/-- Following the spec's words (§4.4): flips applied first (`flip_x` then
`flip_y`), then the clockwise rotation of the socket array.  This is the
procedure the claim asserts for both implementations. -/
def specFlipThenRotateL (t : Legacy.Tile) : Legacy.Sockets :=
  (specFlipYL (specFlipXL t.sockets t.flipX) t.flipY).rotRight t.rotation

/-- The order the legacy code actually uses: rotate the socket array
first, then apply the flips. -/
def rotateThenFlipL (t : Legacy.Tile) : Legacy.Sockets :=
  specFlipYL (specFlipXL (t.sockets.rotRight t.rotation) t.flipX) t.flipY

/-- Following the spec's words (§4.4 step 1) on the generation socket
array. -/
def specFlipXG (s : Gen.Sockets) (fx : Bool) : Gen.Sockets :=
  if fx then ⟨s.t.reversed, s.r, s.l, s.b.reversed⟩ else s

/-- Following the spec's words (§4.4 step 2) on the generation socket
array. -/
def specFlipYG (s : Gen.Sockets) (fy : Bool) : Gen.Sockets :=
  if fy then ⟨s.b, s.l.reversed, s.r.reversed, s.t⟩ else s

/-- Following the spec's words (§4.4): flip `x`, flip `y`, then rotate,
on the generation socket array. -/
def specFlipThenRotateG (tt : Gen.TransformedTile) : Gen.Sockets :=
  (specFlipYG (specFlipXG tt.tile.sockets tt.transform.flipX)
    tt.transform.flipY).rotRight tt.transform.rotation

namespace Examples

/-- `P = 1` tile with matching top/bottom sockets but left socket `[6]`
and right socket `[5]`: horizontally it connects to `tileY` but not to
itself. -/
def tileX : Gen.Tile := ⟨0, 0, ⟨[0], [6], [5], [0]⟩, 1⟩

/-- The horizontal partner of `tileX` (left `[5]`, right `[6]`). -/
def tileY : Gen.Tile := ⟨1, 0, ⟨[0], [5], [6], [0]⟩, 1⟩

/-- `tileX` with the identity transform. -/
def vX : Gen.TransformedTile := ⟨tileX, ⟨.d0, false, false⟩⟩

/-- `tileY` with the identity transform. -/
def vY : Gen.TransformedTile := ⟨tileY, ⟨.d0, false, false⟩⟩

/-- `P = 1` tile whose top socket `[0]` and bottom socket `[1]` connect to
no tile of the `{tileA, tileB}` catalog vertically. -/
def tileA : Gen.Tile := ⟨0, 0, ⟨[0], [9], [9], [1]⟩, 1⟩

/-- Companion of `tileA`: top `[2]`, bottom `[3]`, also vertically
incompatible with both catalog tiles. -/
def tileB : Gen.Tile := ⟨1, 0, ⟨[2], [9], [9], [3]⟩, 1⟩

/-- `tileA` with the identity transform. -/
def vA : Gen.TransformedTile := ⟨tileA, ⟨.d0, false, false⟩⟩

/-- `tileB` with the identity transform. -/
def vB : Gen.TransformedTile := ⟨tileB, ⟨.d0, false, false⟩⟩

/-- A legacy node with the given id on layer `0`. -/
def nd (i : Nat) : Legacy.Node := ⟨i, 0⟩

/-- A constant (symmetric) legacy socket of node id `i`. -/
def sk (i : Nat) : Legacy.Socket := ⟨nd i, nd i, nd i⟩

/-- Legacy tile whose left socket is `sk 1` and right socket `sk 2`:
horizontally incompatible with itself and with `lB`. -/
def lA : Legacy.Tile := ⟨0, ⟨sk 1, sk 0, sk 2, sk 0⟩, .none, false, false, 1⟩

/-- Legacy tile whose left socket is `sk 3` and right socket `sk 4`. -/
def lB : Legacy.Tile := ⟨1, ⟨sk 3, sk 0, sk 4, sk 0⟩, .none, false, false, 1⟩

/-- Legacy tile with four pairwise distinct constant sockets, rotation
`Once` and `flip_x` set: rotation order versus flip order is visible on
it. -/
def c5tile : Legacy.Tile := ⟨0, ⟨sk 1, sk 2, sk 3, sk 4⟩, .once, true, false, 1⟩

/-- Base tile whose four sockets are all the palindrome `[1,0,1]`
(spec §8 scenario 3). -/
def palin : Gen.Tile := ⟨0, 0, ⟨[1, 0, 1], [1, 0, 1], [1, 0, 1], [1, 0, 1]⟩, 1⟩

end Examples

/-- Manhattan distance on grid indices (with `Nat` subtraction, the
absolute differences of the coordinates). -/
def manhattan (a b : Grid.Idx) : Nat :=
  ((a.1 - b.1) + (b.1 - a.1)) + ((a.2 - b.2) + (b.2 - a.2))

section GridLemmas

open Grid

theorem width_newWith (w h : Nat) (v : α) :
    width (newWith w h v) = if h = 0 then 0 else w := by
  cases h <;> simp [width, newWith, List.replicate]

theorem height_newWith (w h : Nat) (v : α) : height (newWith w h v) = h := by
  simp [height, newWith]

theorem get_newWith (w h : Nat) (v : α) (p : Idx) (hx : p.1 < w) (hy : p.2 < h) :
    get (newWith w h v) p = some v := by
  have hw : width (newWith w h v) = w := by
    rw [width_newWith]
    have : h ≠ 0 := Nat.pos_iff_ne_zero.mp (Nat.lt_of_le_of_lt (Nat.zero_le _) hy)
    simp [this]
  have hh : height (newWith w h v) = h := height_newWith w h v
  have hinc : includes (newWith w h v) p := by
    constructor
    · rw [hw]; exact hx
    · rw [hh]; exact hy
  simp only [Grid.get, if_pos hinc]
  simp [newWith, List.get?_eq_getElem?, hx, hy]

/-- The faithful iterator yields exactly the first row (or nothing for a
rowless grid): the row index is never advanced. -/
theorem iterCollect_row (row : List α) (rest : List (List α)) :
    ∀ n k, k + n = row.length →
      iterCollect (n + 1) (k, 0) (row :: rest) = row.drop k := by
  intro n
  induction n with
  | zero =>
    intro k hk
    simp only [Nat.add_zero] at hk
    have hfalse : ¬ (row.length < width (row :: rest) ∧ 0 < height (row :: rest)) := by
      simp [width]
    simp [iterCollect, iterStep, hk, hfalse]
  | succ n ih =>
    intro k hk
    have hklt : k < row.length := by omega
    have hguard : k < width (row :: rest) ∧ 0 < height (row :: rest) := by
      constructor
      · simpa [width] using hklt
      · simp [height]
    have hget : row.get? k = some (row.get ⟨k, hklt⟩) := List.get?_eq_get hklt
    have hstep : iterStep (row :: rest) (k, 0) =
        some (some (row.get ⟨k, hklt⟩), (k + 1, 0)) := by
      rw [iterStep, if_pos hguard]
      simp [hguard.1, hget]
    rw [iterCollect, hstep]
    simp only []
    rw [ih (k + 1) (by omega)]
    exact (List.drop_eq_get_cons hklt).symm

theorem gridIter_eq_headD (g : GridL α) : gridIter g = g.headD [] := by
  cases g with
  | nil =>
    rw [gridIter]
    have : ¬ ((0 : Nat) < width ([] : GridL α) ∧ (0 : Nat) < height ([] : GridL α)) := by
      simp [height]
    simp [iterCollect, iterStep, this]
  | cons row rest =>
    have hw : width (row :: rest) = row.length := by simp [width]
    rw [gridIter, hw]
    have := iterCollect_row row rest row.length 0 (by omega)
    simpa using this

end GridLemmas
/-- Claim C7: for every pair of 4-adjacent cells `A`, `B` (differing by
exactly 1 in exactly one axis), `relative(A, B) = opposite(relative(B, A))`
holds in both copies of `relative`, despite their opposite inequality
conventions. -/
theorem c7_relative_opposite (a b : Nat × Nat)
    (h : (a.1 = b.1 ∧ (a.2 + 1 = b.2 ∨ b.2 + 1 = a.2)) ∨
      (a.2 = b.2 ∧ (a.1 + 1 = b.1 ∨ b.1 + 1 = a.1))) :
    Gen.Side.relative a b = (Gen.Side.relative b a).opposite ∧
      Legacy.Side.relative a b = (Legacy.Side.relative b a).opposite := by
  rcases h with ⟨hx, hy | hy⟩ | ⟨hy, hx | hx⟩ <;>
    constructor <;>
      (simp only [Gen.Side.relative, Gen.Side.relativeX, Gen.Side.relativeY,
        Legacy.Side.relative, Legacy.Side.relativeX, Legacy.Side.relativeY]
       split_ifs <;> first | rfl | omega)

/-- Witness for C7 at the concrete adjacent pair `(0,0)`, `(1,0)`. -/
theorem c7_relative_opposite_witness :
    ((((0 : Nat), (0 : Nat)).1 = ((1 : Nat), (0 : Nat)).1 ∧
        ((0 : Nat), (0 : Nat)).2 + 1 = ((1 : Nat), (0 : Nat)).2 ∨
          ((1 : Nat), (0 : Nat)).2 + 1 = ((0 : Nat), (0 : Nat)).2) ∨
      (((0 : Nat), (0 : Nat)).2 = ((1 : Nat), (0 : Nat)).2 ∧
        (((0 : Nat), (0 : Nat)).1 + 1 = ((1 : Nat), (0 : Nat)).1 ∨
          ((1 : Nat), (0 : Nat)).1 + 1 = ((0 : Nat), (0 : Nat)).1))) ∧
    (Gen.Side.relative (0, 0) (1, 0) = (Gen.Side.relative (1, 0) (0, 0)).opposite ∧
      Legacy.Side.relative (0, 0) (1, 0) =
        (Legacy.Side.relative (1, 0) (0, 0)).opposite) :=
  ⟨by simp, c7_relative_opposite (0, 0) (1, 0) (by simp)⟩

/-- Claim C5 (counterexample): the legacy `Tile::transformed` does not
apply flips before rotation — on `c5tile` (rotation `Once`, `flip_x`) it
differs from the spec's flips-then-rotation procedure. -/
theorem c5_counterexample :
    (Legacy.Tile.transformed Examples.c5tile).sockets ≠
      specFlipThenRotateL Examples.c5tile := by decide

/-- Claim C5 (amended): the generation `TransformedTile::transformed`
applies `flip_x`, then `flip_y`, then the clockwise rotation of the socket
array; the legacy `Tile::transformed` instead applies the rotation first
and the flips second. -/
theorem c5_transform_orders :
    (∀ tt : Gen.TransformedTile,
      tt.transformed.sockets = specFlipThenRotateG tt) ∧
    (∀ t : Legacy.Tile, t.transformed.sockets = rotateThenFlipL t) := by
  constructor
  · intro tt
    obtain ⟨⟨i, la, ⟨st, sl, sr, sb⟩, w⟩, ⟨r, fx, fy⟩⟩ := tt
    cases r <;> cases fx <;> cases fy <;> rfl
  · intro t
    obtain ⟨i, ⟨sl, st, sr, sb⟩, r, fx, fy, w⟩ := t
    cases r <;> cases fx <;> cases fy <;> rfl

/-- Claim C6 (counterexample): for the all-palindrome base tile, the
catalog after `dedup` holds 16 variants (not 1), and already its first two
kept variants have the same transformed socket array and layer. -/
theorem c6_counterexample :
    (dedupConsec (Gen.addTileTiles Examples.palin)).length = 16 ∧
    ((dedupConsec (Gen.addTileTiles Examples.palin)).get? 0).map
        Gen.TransformedTile.transformed =
      ((dedupConsec (Gen.addTileTiles Examples.palin)).get? 1).map
        Gen.TransformedTile.transformed ∧
    (dedupConsec (Gen.addTileTiles Examples.palin)).length ≠ 1 := by decide

/-- Claim C6 (amended): the builder emits the 16 transforms, and the
subsequent `Vec::dedup` compares whole variants (base tile and transform,
consecutive entries only) — never the transformed socket array — so all 16
are kept for every base tile, in both implementations; for the
all-palindrome tile the 16 kept variants all share one transformed socket
array. -/
theorem c6_dedup_keeps_all_sixteen :
    (∀ t : Gen.Tile, dedupConsec (Gen.addTileTiles t) = Gen.addTileTiles t) ∧
    (∀ (i : Nat) (s : Legacy.Sockets) (w : Nat),
      dedupConsec (Legacy.asTiles i s w) = Legacy.asTiles i s w) ∧
    ((dedupConsec (Gen.addTileTiles Examples.palin)).map
        (fun v => v.transformed)).all
      (fun t => t == Gen.TransformedTile.transformed
        ⟨Examples.palin, ⟨.d0, false, false⟩⟩) = true := by
  refine ⟨?_, ?_, by decide⟩
  · intro t
    simp [Gen.addTileTiles, Gen.Rotation.all, dedupConsec, dedupAux,
      Gen.TransformedTile.mk.injEq, Gen.Transform.mk.injEq]
  · intro i s w
    simp [Legacy.asTiles, dedupConsec, dedupAux, Legacy.Tile.mk.injEq]

/-- Claim C8 (counterexample): construction never fails — `Generator::new`
returns a generator for width 0, height 0 and the empty catalog alike (and
the error type has no `InvalidConfig` constructor at all). -/
theorem c8_counterexample :
    Gen.Generator.new 0 3 [] = [[], [], []] ∧
    Gen.Generator.new 5 0 [Examples.vX] = [] ∧
    Gen.Generator.new 2 1 [] = [[[], []]] := by decide

/-- Claim C8 (amended): `Generator::new` performs no validation: for every
width, height and variant list it returns the `height`-row grid whose rows
have length `width` and whose every cell holds the (consecutively)
deduplicated variant list; a zero dimension yields a degenerate empty
grid. -/
theorem c8_new_never_fails (w h : Nat) (ts : List Gen.TransformedTile) :
    Grid.height (Gen.Generator.new w h ts) = h ∧
    Grid.width (Gen.Generator.new w h ts) = (if h = 0 then 0 else w) ∧
    ∀ x y, x < w → y < h →
      Grid.get (Gen.Generator.new w h ts) (x, y) = some (dedupConsec ts) := by
  refine ⟨height_newWith w h _, width_newWith w h _, ?_⟩
  intro x y hx hy
  exact get_newWith w h _ (x, y) hx hy

/-- Witness for C8 (amended) at a 2 × 2 generator. -/
theorem c8_new_never_fails_witness :
    (0 : Nat) < 2 ∧
    Grid.get (Gen.Generator.new 2 2 [Examples.vX]) (0, 0) =
      some (dedupConsec [Examples.vX]) :=
  ⟨by decide,
    (c8_new_never_fails 2 2 [Examples.vX]).2.2 0 0 (by decide) (by decide)⟩

/-- Claim C9: with the PRNG modelled as an explicit stream (the only
source of nondeterminism in the sources), `run` is a pure function of the
catalog (in insertion order), the dimensions and the stream: two
executions with identical inputs produce identical results. -/
theorem c9_run_deterministic (fuel w h : Nat)
    (cat cat' : List Gen.TransformedTile) (rng rng' : Rng)
    (hcat : cat = cat') (hrng : rng = rng') :
    Gen.Generator.runFuel fuel (Gen.Generator.new w h cat) rng =
      Gen.Generator.runFuel fuel (Gen.Generator.new w h cat') rng' := by
  subst hcat
  subst hrng
  rfl

/-- Witness for C9 on a 1 × 1 run. -/
theorem c9_run_deterministic_witness :
    [Examples.vX] = [Examples.vX] ∧ ([0] : Rng) = [0] ∧
    Gen.Generator.runFuel 2 (Gen.Generator.new 1 1 [Examples.vX]) [0] =
      Gen.Generator.runFuel 2 (Gen.Generator.new 1 1 [Examples.vX]) [0] :=
  ⟨rfl, rfl, c9_run_deterministic 2 1 1 [Examples.vX] [Examples.vX] [0] [0] rfl rfl⟩

/-- Claim C3: `Iter::next` of `src/collections/grid.rs` never advances the
row index, so `iter()` yields only the first row — on the 3 × 3 grid of
the iterator's own documentation example it yields `[1, 2, 3]` instead of
all nine cells in row-major order; consequently `is_collapsed` and
`entropy` of the generation solver examine only row 0 (here a 1 × 2
generator whose second cell holds two candidates is reported collapsed,
with entropy 1 instead of 3). -/
theorem c3_iter_only_first_row :
    Grid.gridIter ([[1, 2, 3], [4, 5, 6], [7, 8, 9]] : Grid.GridL Nat) = [1, 2, 3] ∧
    Grid.gridIter ([[1, 2, 3], [4, 5, 6], [7, 8, 9]] : Grid.GridL Nat) ≠
      [1, 2, 3, 4, 5, 6, 7, 8, 9] ∧
    Gen.Generator.isCollapsed
      [[[Examples.vX]], [[Examples.vX, Examples.vY]]] = true ∧
    Gen.Generator.entropy
      [[[Examples.vX]], [[Examples.vX, Examples.vY]]] = 1 := by decide

/-- Claim C1: on the 2 × 2 generator over the catalog `[vX, vY]` (all
tiles vertically compatible; horizontally only `X–Y` and `Y–X` connect),
with the PRNG choosing cell `(0,0)` and variant `vX`, `run` returns `Ok`
with a grid whose bottom row is `[tileX, tileX]` — an adjacent pair that
fails the adjacency predicate (`tileX`'s socket on
`relative((0,1),(1,1))` is `[6]`, `tileX`'s on the opposite side `[5]`). -/
theorem c1_run_ok_violates_adjacency :
    Gen.Generator.runFuel 3 (Gen.Generator.new 2 2 [Examples.vX, Examples.vY])
        [0, 0] =
      some (.ok [[Examples.tileX, Examples.tileY],
        [Examples.tileX, Examples.tileX]]) ∧
    Gen.Tile.connectsTo Examples.tileX Examples.tileX
      (Gen.Side.relative (0, 1) (1, 1)) = false :=
  ⟨rfl, by decide⟩

/-- Claim C10: for an in-bounds position `(x, y)`, `adjacent` returns
exactly the in-bounds positions at Manhattan distance 1 (never the
position itself — the saturating subtractions at the border produce the
centre and are filtered out), and its count is 2 at a corner, 3 on an
edge, 4 in the interior, as given by the closed formula below. -/
theorem c10_adjacent_exact (g : Grid.GridL α) (x y : Nat)
    (hx : x < Grid.width g) (hy : y < Grid.height g) :
    (∀ q, q ∈ Grid.adjacent g (x, y) ↔
      (q.1 < Grid.width g ∧ q.2 < Grid.height g ∧ manhattan q (x, y) = 1)) ∧
    (x, y) ∉ Grid.adjacent g (x, y) ∧
    (Grid.adjacent g (x, y)).length =
      ((if 0 < x then 1 else 0) + (if x + 1 < Grid.width g then 1 else 0)) +
      ((if 0 < y then 1 else 0) + (if y + 1 < Grid.height g then 1 else 0)) := by
  have hlist : Grid.adjacent g (x, y) =
      ((if 0 < x then [((x - 1 : Nat), y)] else []) ++
        (if x + 1 < Grid.width g then [(x + 1, y)] else [])) ++
      ((if 0 < y then [(x, (y - 1 : Nat))] else []) ++
        (if y + 1 < Grid.height g then [(x, y + 1)] else [])) := by
    unfold Grid.adjacent
    rw [List.filter_filter, List.filter_filter]
    simp only [show ((x, y) : Grid.Idx).1 = x from rfl,
      show ((x, y) : Grid.Idx).2 = y from rfl]
    simp only [List.filter_cons, List.filter_nil]
    have hw1 : x - 1 < Grid.width g := by omega
    have f1 : (decide (((x - 1 : Nat), y).2 < Grid.height g) &&
        decide (((x - 1 : Nat), y).1 < Grid.width g) &&
        decide (((x - 1 : Nat), y) ≠ (x, y))) = decide (0 < x) := by
      by_cases h : 0 < x
      · have hne : ((x - 1 : Nat), y) ≠ (x, y) := by
          intro heq
          have hfst : x - 1 = x := congrArg Prod.fst heq
          omega
        simp [h, hne, hw1, hy]
      · have hfst : x - 1 = x := by omega
        have heq : ((x - 1 : Nat), y) = (x, y) := by rw [hfst]
        simp [h, heq]
    have f2 : (decide ((x + 1, y).2 < Grid.height g) &&
        decide ((x + 1, y).1 < Grid.width g) &&
        decide ((x + 1, y) ≠ (x, y))) = decide (x + 1 < Grid.width g) := by
      have hne : (x + 1, y) ≠ (x, y) := by
        intro heq
        have hfst : x + 1 = x := congrArg Prod.fst heq
        omega
      by_cases h : x + 1 < Grid.width g <;> simp [h, hne, hy]
    have f3 : (decide ((x, (y - 1 : Nat)).2 < Grid.height g) &&
        decide ((x, (y - 1 : Nat)).1 < Grid.width g) &&
        decide ((x, (y - 1 : Nat)) ≠ (x, y))) = decide (0 < y) := by
      have hh1 : y - 1 < Grid.height g := by omega
      by_cases h : 0 < y
      · have hne : (x, (y - 1 : Nat)) ≠ (x, y) := by
          intro heq
          have hsnd : y - 1 = y := congrArg Prod.snd heq
          omega
        simp [h, hne, hx, hh1]
      · have hsnd : y - 1 = y := by omega
        have heq : (x, (y - 1 : Nat)) = (x, y) := by rw [hsnd]
        simp [h, heq]
    have f4 : (decide ((x, y + 1).2 < Grid.height g) &&
        decide ((x, y + 1).1 < Grid.width g) &&
        decide ((x, y + 1) ≠ (x, y))) = decide (y + 1 < Grid.height g) := by
      have hne : (x, y + 1) ≠ (x, y) := by
        intro heq
        have hsnd : y + 1 = y := congrArg Prod.snd heq
        omega
      by_cases h : y + 1 < Grid.height g <;> simp [h, hne, hx]
    rw [f1, f2, f3, f4]
    by_cases h1 : 0 < x <;> by_cases h2 : x + 1 < Grid.width g <;>
      by_cases h3 : 0 < y <;> by_cases h4 : y + 1 < Grid.height g <;>
        simp [h1, h2, h3, h4]
  have hmem : ∀ q, q ∈ Grid.adjacent g (x, y) ↔
      (q.1 < Grid.width g ∧ q.2 < Grid.height g ∧ manhattan q (x, y) = 1) := by
    intro q
    rw [hlist]
    by_cases h1 : 0 < x <;> by_cases h2 : x + 1 < Grid.width g <;>
      by_cases h3 : 0 < y <;> by_cases h4 : y + 1 < Grid.height g <;>
        (simp [h1, h2, h3, h4, Prod.ext_iff, manhattan] <;> omega)
  refine ⟨hmem, ?_, ?_⟩
  · intro hmemself
    have := (hmem (x, y)).mp hmemself
    simp [manhattan] at this
  · rw [hlist]
    by_cases h1 : 0 < x <;> by_cases h2 : x + 1 < Grid.width g <;>
      by_cases h3 : 0 < y <;> by_cases h4 : y + 1 < Grid.height g <;>
        simp [h1, h2, h3, h4]

/-- Witness for C10 at the corner `(0, 0)` of a 2 × 2 grid. -/
theorem c10_adjacent_exact_witness :
    (0 : Nat) < Grid.width ([[0, 1], [2, 3]] : Grid.GridL Nat) ∧
    (0 : Nat) < Grid.height ([[0, 1], [2, 3]] : Grid.GridL Nat) ∧
    ((∀ q, q ∈ Grid.adjacent ([[0, 1], [2, 3]] : Grid.GridL Nat) (0, 0) ↔
      (q.1 < Grid.width ([[0, 1], [2, 3]] : Grid.GridL Nat) ∧
        q.2 < Grid.height ([[0, 1], [2, 3]] : Grid.GridL Nat) ∧
        manhattan q (0, 0) = 1)) ∧
    (0, 0) ∉ Grid.adjacent ([[0, 1], [2, 3]] : Grid.GridL Nat) (0, 0) ∧
    (Grid.adjacent ([[0, 1], [2, 3]] : Grid.GridL Nat) (0, 0)).length =
      ((if 0 < 0 then 1 else 0) +
        (if 0 + 1 < Grid.width ([[0, 1], [2, 3]] : Grid.GridL Nat) then 1 else 0)) +
      ((if 0 < 0 then 1 else 0) +
        (if 0 + 1 < Grid.height ([[0, 1], [2, 3]] : Grid.GridL Nat) then 1 else 0))) :=
  ⟨by decide, by decide,
    c10_adjacent_exact ([[0, 1], [2, 3]] : Grid.GridL Nat) 0 0 (by decide) (by decide)⟩

section Worklist

variable {α : Type}

/-- Summing a map over a list after updating one position: the old value's
contribution is replaced by the new value's. -/
theorem sum_map_set (f : β → Nat) :
    ∀ (l : List β) (x : Nat) (a c : β), l.get? x = some c →
      (((l.set x a).map f).sum + f c) = ((l.map f).sum + f a) := by
  intro l
  induction l with
  | nil => intro x a c hc; simp at hc
  | cons hd tl ih =>
    intro x a c hc
    cases x with
    | zero =>
      simp only [List.get?_cons_zero, Option.some.injEq] at hc
      subst hc
      simp only [List.set, List.map_cons, List.sum_cons]
      omega
    | succ x =>
      simp only [List.get?_cons_succ] at hc
      have := ih x a c hc
      simp only [List.set, List.map_cons, List.sum_cons]
      omega

/-- `get` succeeding means the index is in bounds and the row is present. -/
theorem Grid.get_eq_some_iff {g : Grid.GridL α} {p : Grid.Idx} {c : α} :
    Grid.get g p = some c ↔
      Grid.includes g p ∧ ∃ row, g.get? p.2 = some row ∧ row.get? p.1 = some c := by
  constructor
  · intro h
    rw [Grid.get] at h
    by_cases hinc : Grid.includes g p
    · rw [if_pos hinc] at h
      cases hrow : g.get? p.2 with
      | none => rw [hrow] at h; cases h
      | some row =>
        rw [hrow] at h
        exact ⟨hinc, row, rfl, h⟩
    · rw [if_neg hinc] at h; cases h
  · rintro ⟨hinc, row, hrow, hc⟩
    rw [Grid.get, if_pos hinc, hrow]
    exact hc

/-- `setC` preserves the height. -/
theorem Grid.height_setC (g : Grid.GridL α) (q : Grid.Idx) (v : α) :
    Grid.height (Grid.setC g q v) = Grid.height g := by
  rw [Grid.setC]
  split
  · simp [Grid.height]
  · rfl

/-- `setC` preserves the width. -/
theorem Grid.width_setC (g : Grid.GridL α) (q : Grid.Idx) (v : α) :
    Grid.width (Grid.setC g q v) = Grid.width g := by
  rw [Grid.setC]
  split
  · cases g with
    | nil => simp [Grid.width]
    | cons row rest =>
      cases hq : q.2 with
      | zero => simp [Grid.width, List.set]
      | succ n => simp [Grid.width, List.set]
  · rfl

/-- Reading back the cell just written. -/
theorem Grid.get_setC_self {g : Grid.GridL α} {q : Grid.Idx} {c : α} (v : α)
    (h : Grid.get g q = some c) : Grid.get (Grid.setC g q v) q = some v := by
  obtain ⟨hinc, row, hrow, hc⟩ := Grid.get_eq_some_iff.mp h
  have hy : q.2 < g.length := by
    by_contra hcon
    rw [List.get?_eq_none.mpr (by omega)] at hrow
    cases hrow
  have hx : q.1 < row.length := by
    by_contra hcon
    rw [List.get?_eq_none.mpr (by omega)] at hc
    cases hc
  have hgetD : g.getD q.2 [] = row := by
    rw [show g.getD q.2 [] = (g.get? q.2).getD [] from rfl, hrow]
    rfl
  rw [Grid.setC, if_pos hinc, hgetD]
  have hinc' : Grid.includes (g.set q.2 (row.set q.1 v)) q := by
    constructor
    · have hws := Grid.width_setC g q v
      rw [Grid.setC, if_pos hinc, hgetD] at hws
      rw [hws]
      exact hinc.1
    · simpa [Grid.height] using hinc.2
  rw [Grid.get, if_pos hinc']
  rw [List.get?_set_eq_of_lt _ hy]
  exact List.get?_set_eq_of_lt v hx

/-- Cells other than the written one are unchanged. -/
theorem Grid.get_setC_ne {g : Grid.GridL α} {q r : Grid.Idx} (v : α)
    (h : r ≠ q) : Grid.get (Grid.setC g q v) r = Grid.get g r := by
  by_cases hinc : Grid.includes g q
  · have hws := Grid.width_setC g q v
    have hhs := Grid.height_setC g q v
    have hdim : Grid.includes (Grid.setC g q v) r ↔ Grid.includes g r := by
      constructor <;> intro hr
      · exact ⟨by rw [← hws]; exact hr.1, by rw [← hhs]; exact hr.2⟩
      · exact ⟨by rw [hws]; exact hr.1, by rw [hhs]; exact hr.2⟩
    rw [Grid.setC, if_pos hinc] at hws hhs ⊢
    rw [Grid.setC, if_pos hinc] at hdim
    rw [Grid.get, Grid.get]
    by_cases hr : Grid.includes g r
    · rw [if_pos (hdim.mpr hr), if_pos hr]
      by_cases hyy : r.2 = q.2
      · have hy : q.2 < g.length := by
          have := hinc.2
          simpa [Grid.height] using this
        obtain ⟨row, hrow⟩ : ∃ row, g.get? q.2 = some row :=
          Option.isSome_iff_exists.mp (by
            rw [List.get?_eq_get hy]
            rfl)
        have hgetD : g.getD q.2 [] = row := by
          rw [show g.getD q.2 [] = (g.get? q.2).getD [] from rfl, hrow]
          rfl
        have hxne : r.1 ≠ q.1 := by
          intro hcon
          exact h (Prod.ext hcon hyy)
        rw [hyy, hgetD, List.get?_set_eq_of_lt _ hy, hrow]
        show (row.set q.1 v).get? r.1 = row.get? r.1
        exact List.get?_set_ne v row (fun hcon => hxne hcon.symm)
      · rw [List.get?_set_ne _ _ (fun hcon => hyy hcon.symm)]
    · rw [if_neg (fun hcon => hr (hdim.mp hcon)), if_neg hr]
  · rw [Grid.setC, if_neg hinc]

/-- Updating one row changes `totalLen` by the difference of the row
sums. -/
theorem Grid.totalLen_set_row {β : Type} :
    ∀ (g : Grid.GridL (List β)) (y : Nat) (row row' : List (List β)),
      g.get? y = some row →
      Grid.totalLen (g.set y row') + (row.map List.length).sum =
        Grid.totalLen g + (row'.map List.length).sum := by
  intro g
  induction g with
  | nil => intro y _ _ hc; simp at hc
  | cons hd tl ih =>
    intro y row row' hc
    cases y with
    | zero =>
      simp only [List.get?_cons_zero, Option.some.injEq] at hc
      subst hc
      simp only [List.set, Grid.totalLen, List.map_cons, List.sum_cons]
      omega
    | succ y =>
      simp only [List.get?_cons_succ] at hc
      have := ih y row row' hc
      simp only [List.set, Grid.totalLen, List.map_cons, List.sum_cons] at this ⊢
      omega

/-- Writing a cell changes `totalLen` by the difference of cell sizes. -/
theorem Grid.totalLen_setC {β : Type} {g : Grid.GridL (List β)} {q : Grid.Idx}
    {c : List β} (v : List β) (h : Grid.get g q = some c) :
    Grid.totalLen (Grid.setC g q v) + c.length = Grid.totalLen g + v.length := by
  obtain ⟨hinc, row, hrow, hc⟩ := Grid.get_eq_some_iff.mp h
  have hgetD : g.getD q.2 [] = row := by
    rw [show g.getD q.2 [] = (g.get? q.2).getD [] from rfl, hrow]
    rfl
  rw [Grid.setC, if_pos hinc, hgetD]
  have hrowsum : (((row.set q.1 v).map List.length).sum + c.length) =
      ((row.map List.length).sum + v.length) :=
    sum_map_set List.length row q.1 v c hc
  have hrows := Grid.totalLen_set_row g q.2 row (row.set q.1 v) hrow
  omega

end Worklist

section PruneLemmas

variable {α : Type} [DecidableEq α]

/-- The cell after the inner loop: exactly the tiles that pass `keep` or
never occur in the iterated snapshot survive. -/
theorem pruneCell_fst (keep : α → Bool) :
    ∀ (l cell : List α) (stack : List Grid.Idx) (q : Grid.Idx),
    (pruneCell keep l cell stack q).1 =
      cell.filter (fun u => keep u || decide (u ∉ l)) := by
  intro l
  induction l with
  | nil =>
    intro cell stack q
    simp [pruneCell]
  | cons t ts ih =>
    intro cell stack q
    by_cases hk : keep t = true
    · rw [pruneCell, if_pos hk, ih]
      apply List.filter_congr
      intro u _
      by_cases hku : keep u = true
      · simp [hku]
      · have hut : u ≠ t := fun he => by rw [he] at hku; exact hku hk
        simp [hku, List.mem_cons, hut]
    · rw [pruneCell, if_neg hk, ih, List.filter_filter]
      apply List.filter_congr
      intro u _
      by_cases hku : keep u = true
      · have hut : u ≠ t := fun he => by rw [← he] at hk; exact hk hku
        simp [hku, hut]
      · by_cases hut : u = t
        · subst hut
          simp [hku, List.mem_cons]
        · simp [hku, List.mem_cons, hut]

/-- The stack after the inner loop: the neighbour is pushed exactly once,
and only when some snapshot tile fails `keep` and it was not already
on the stack. -/
theorem pruneCell_snd (keep : α → Bool) :
    ∀ (l cell : List α) (stack : List Grid.Idx) (q : Grid.Idx),
    (pruneCell keep l cell stack q).2 =
      if (∃ t ∈ l, keep t = false) ∧ q ∉ stack then q :: stack else stack := by
  intro l
  induction l with
  | nil =>
    intro cell stack q
    simp [pruneCell]
  | cons t ts ih =>
    intro cell stack q
    by_cases hk : keep t = true
    · rw [pruneCell, if_pos hk, ih]
      have hiff : ((∃ u ∈ ts, keep u = false) ∧ q ∉ stack) ↔
          ((∃ u ∈ t :: ts, keep u = false) ∧ q ∉ stack) := by
        constructor
        · rintro ⟨⟨u, hu, hku⟩, hq⟩
          exact ⟨⟨u, List.mem_cons_of_mem _ hu, hku⟩, hq⟩
        · rintro ⟨⟨u, hu, hku⟩, hq⟩
          rcases List.mem_cons.mp hu with rfl | hu
          · rw [hk] at hku; cases hku
          · exact ⟨⟨u, hu, hku⟩, hq⟩
      exact if_congr hiff rfl rfl
    · have hkf : keep t = false := by
        cases hkk : keep t
        · rfl
        · exact absurd hkk hk
      have hcond : ∃ u ∈ t :: ts, keep u = false :=
        ⟨t, List.mem_cons_self t ts, hkf⟩
      rw [pruneCell, if_neg hk, ih]
      by_cases hq : q ∈ stack
      · have hstack1 : (if q ∈ stack then stack else q :: stack) = stack :=
          if_pos hq
        rw [hstack1, if_neg (fun hcon => hcon.2 hq),
          if_neg (fun hcon => hcon.2 hq)]
      · have hstack1 : (if q ∈ stack then stack else q :: stack) = q :: stack :=
          if_neg hq
        rw [hstack1,
          if_neg (fun hcon => hcon.2 (List.mem_cons_self q stack)),
          if_pos ⟨hcond, hq⟩]

end PruneLemmas

section ProcessLemmas

variable {α : Type} [DecidableEq α] {ε : Type}

/-- The inner loop only ever pushes onto the stack. -/
theorem pruneCell_stack_sub (keep : α → Bool) (l cell : List α)
    (stack : List Grid.Idx) (q : Grid.Idx) :
    stack ⊆ (pruneCell keep l cell stack q).2 := by
  rw [pruneCell_snd]
  split
  · exact fun a ha => List.mem_cons_of_mem _ ha
  · exact fun a ha => ha

/-- If the inner loop changed the cell, the neighbour ends up on the
stack (it is pushed, or it already was there). -/
theorem pruneCell_mem_of_change (keep : α → Bool) (cell : List α)
    (stack : List Grid.Idx) (q : Grid.Idx)
    (h : (pruneCell keep cell cell stack q).1 ≠ cell) :
    q ∈ (pruneCell keep cell cell stack q).2 := by
  have hex : ∃ u ∈ cell, keep u = false := by
    by_contra hall
    push_neg at hall
    apply h
    rw [pruneCell_fst]
    apply List.filter_eq_self.mpr
    intro u hu
    have := hall u hu
    simp only [Bool.not_eq_false] at this
    simp [this]
  rw [pruneCell_snd]
  split
  · exact List.mem_cons_self _ _
  · rename_i hcon
    by_contra hq
    exact hcon ⟨hex, hq⟩

/-- Against an empty snapshot nothing survives: the whole cell is
removed. -/
theorem pruneCell_fst_all_false (keep : α → Bool) (cell : List α)
    (stack : List Grid.Idx) (q : Grid.Idx)
    (hall : ∀ u ∈ cell, keep u = false) :
    (pruneCell keep cell cell stack q).1 = [] := by
  rw [pruneCell_fst]
  apply List.filter_eq_nil_iff.mpr
  intro u hu
  simp [hall u hu, hu]

variable (missing : ε) (compat : List α → Grid.Idx → Grid.Idx → α → Bool)
  (S : List α) (p : Grid.Idx)

/-- The neighbour loop only ever pushes onto the stack. -/
theorem processAdj_sub :
    ∀ (qs : List Grid.Idx) (g : Grid.GridL (List α)) (stack : List Grid.Idx)
      (g₁ : Grid.GridL (List α)) (st₁ : List Grid.Idx),
      processAdj missing compat S p qs g stack = .ok (g₁, st₁) → stack ⊆ st₁ := by
  intro qs
  induction qs with
  | nil =>
    intro g stack g₁ st₁ h
    simp only [processAdj, Except.ok.injEq, Prod.mk.injEq] at h
    rw [← h.2]
    exact fun a ha => ha
  | cons q qs ih =>
    intro g stack g₁ st₁ h
    cases hget : Grid.get g q with
    | none => rw [processAdj, hget] at h; cases h
    | some cell =>
      rw [processAdj, hget] at h
      exact fun a ha =>
        ih _ _ _ _ h (pruneCell_stack_sub _ _ _ _ _ ha)

/-- The neighbour loop preserves the grid dimensions. -/
theorem processAdj_dims :
    ∀ (qs : List Grid.Idx) (g : Grid.GridL (List α)) (stack : List Grid.Idx)
      (g₁ : Grid.GridL (List α)) (st₁ : List Grid.Idx),
      processAdj missing compat S p qs g stack = .ok (g₁, st₁) →
      Grid.width g₁ = Grid.width g ∧ Grid.height g₁ = Grid.height g := by
  intro qs
  induction qs with
  | nil =>
    intro g stack g₁ st₁ h
    simp only [processAdj, Except.ok.injEq, Prod.mk.injEq] at h
    rw [← h.1]
    exact ⟨rfl, rfl⟩
  | cons q qs ih =>
    intro g stack g₁ st₁ h
    cases hget : Grid.get g q with
    | none => rw [processAdj, hget] at h; cases h
    | some cell =>
      rw [processAdj, hget] at h
      have := ih _ _ _ _ h
      rw [Grid.width_setC, Grid.height_setC] at this
      exact this

/-- Cells not in the neighbour list are untouched. -/
theorem processAdj_get_not_mem :
    ∀ (qs : List Grid.Idx) (g : Grid.GridL (List α)) (stack : List Grid.Idx)
      (g₁ : Grid.GridL (List α)) (st₁ : List Grid.Idx) (r : Grid.Idx),
      processAdj missing compat S p qs g stack = .ok (g₁, st₁) → r ∉ qs →
      Grid.get g₁ r = Grid.get g r := by
  intro qs
  induction qs with
  | nil =>
    intro g stack g₁ st₁ r h _
    simp only [processAdj, Except.ok.injEq, Prod.mk.injEq] at h
    rw [← h.1]
  | cons q qs ih =>
    intro g stack g₁ st₁ r h hr
    cases hget : Grid.get g q with
    | none => rw [processAdj, hget] at h; cases h
    | some cell =>
      rw [processAdj, hget] at h
      have hrq : r ≠ q := fun hcon => hr (hcon ▸ List.mem_cons_self q qs)
      have hrqs : r ∉ qs := fun hcon => hr (List.mem_cons_of_mem _ hcon)
      rw [ih _ _ _ _ r h hrqs, Grid.get_setC_ne _ hrq]

/-- Empty cells stay empty through the neighbour loop. -/
theorem processAdj_empty_persist :
    ∀ (qs : List Grid.Idx) (g : Grid.GridL (List α)) (stack : List Grid.Idx)
      (g₁ : Grid.GridL (List α)) (st₁ : List Grid.Idx) (r : Grid.Idx),
      processAdj missing compat S p qs g stack = .ok (g₁, st₁) →
      Grid.get g r = some [] → Grid.get g₁ r = some [] := by
  intro qs
  induction qs with
  | nil =>
    intro g stack g₁ st₁ r h hr
    simp only [processAdj, Except.ok.injEq, Prod.mk.injEq] at h
    rw [← h.1]
    exact hr
  | cons q qs ih =>
    intro g stack g₁ st₁ r h hr
    cases hget : Grid.get g q with
    | none => rw [processAdj, hget] at h; cases h
    | some cell =>
      rw [processAdj, hget] at h
      by_cases hrq : r = q
      · subst hrq
        have hcell : cell = [] := by
          rw [hget] at hr
          exact Option.some.inj hr
        subst hcell
        have hfst : (pruneCell (fun t => compat S p r t) [] [] stack r).1 = [] := by
          rw [pruneCell_fst]
          rfl
        refine ih _ _ _ _ r h ?_
        rw [hfst]
        exact Grid.get_setC_self [] hget
      · refine ih _ _ _ _ r h ?_
        rw [Grid.get_setC_ne _ hrq]
        exact hr

/-- Every cell of the result either kept its old value or its position
was pushed onto the stack. -/
theorem processAdj_origin :
    ∀ (qs : List Grid.Idx) (g : Grid.GridL (List α)) (stack : List Grid.Idx)
      (g₁ : Grid.GridL (List α)) (st₁ : List Grid.Idx) (r : Grid.Idx)
      (c₁ : List α),
      processAdj missing compat S p qs g stack = .ok (g₁, st₁) →
      Grid.get g₁ r = some c₁ →
      ∃ c, Grid.get g r = some c ∧ (c₁ = c ∨ r ∈ st₁) := by
  intro qs
  induction qs with
  | nil =>
    intro g stack g₁ st₁ r c₁ h hr
    simp only [processAdj, Except.ok.injEq, Prod.mk.injEq] at h
    rw [← h.1] at hr
    exact ⟨c₁, hr, Or.inl rfl⟩
  | cons q qs ih =>
    intro g stack g₁ st₁ r c₁ h hr
    cases hget : Grid.get g q with
    | none => rw [processAdj, hget] at h; cases h
    | some cell =>
      rw [processAdj, hget] at h
      obtain ⟨c', hc', hor⟩ := ih _ _ _ _ r c₁ h hr
      by_cases hrq : r = q
      · subst hrq
        have hcellv := Grid.get_setC_self
          (pruneCell (fun t => compat S p r t) cell cell stack r).1 hget
        rw [hcellv] at hc'
        have hc'' : c' = (pruneCell (fun t => compat S p r t) cell cell stack r).1 :=
          (Option.some.injEq _ _ ▸ hc'.symm : _)
        by_cases hchange :
            (pruneCell (fun t => compat S p r t) cell cell stack r).1 = cell
        · refine ⟨cell, hget, ?_⟩
          rcases hor with hcc | hmem
          · exact Or.inl (by rw [hcc, hc'', hchange])
          · exact Or.inr hmem
        · refine ⟨cell, hget, Or.inr ?_⟩
          have hqmem := pruneCell_mem_of_change
            (fun t => compat S p r t) cell stack r hchange
          exact processAdj_sub missing compat S p _ _ _ _ _ h hqmem
      · rw [Grid.get_setC_ne _ hrq] at hc'
        exact ⟨c', hc', hor⟩

/-- The measure `totalLen + stack length` never increases across the
neighbour loop: every push is paid for by at least one tile removal. -/
theorem processAdj_measure :
    ∀ (qs : List Grid.Idx) (g : Grid.GridL (List α)) (stack : List Grid.Idx)
      (g₁ : Grid.GridL (List α)) (st₁ : List Grid.Idx),
      processAdj missing compat S p qs g stack = .ok (g₁, st₁) →
      Grid.totalLen g₁ + st₁.length ≤ Grid.totalLen g + stack.length := by
  intro qs
  induction qs with
  | nil =>
    intro g stack g₁ st₁ h
    simp only [processAdj, Except.ok.injEq, Prod.mk.injEq] at h
    rw [← h.1, ← h.2]
  | cons q qs ih =>
    intro g stack g₁ st₁ h
    cases hget : Grid.get g q with
    | none => rw [processAdj, hget] at h; cases h
    | some cell =>
      rw [processAdj, hget] at h
      have hih := ih _ _ _ _ h
      have htot := Grid.totalLen_setC
        (pruneCell (fun t => compat S p q t) cell cell stack q).1 hget
      have hfst := pruneCell_fst (fun t => compat S p q t) cell cell stack q
      have hlen : (pruneCell (fun t => compat S p q t) cell cell stack q).1.length
          ≤ cell.length := by
        rw [hfst]
        exact List.length_filter_le _ _
      have hsnd := pruneCell_snd (fun t => compat S p q t) cell cell stack q
      by_cases hcond : (∃ t ∈ cell, compat S p q t = false) ∧ q ∉ stack
      · rw [if_pos hcond] at hsnd
        obtain ⟨⟨u, hu, hku⟩, _⟩ := hcond
        have hstrict : (pruneCell (fun t => compat S p q t) cell cell stack q).1.length
            < cell.length := by
          rw [hfst]
          apply List.length_filter_lt_length_iff_exists.mpr
          refine ⟨u, hu, ?_⟩
          simp [hku, hu]
        rw [hsnd] at hih
        simp only [List.length_cons] at hih
        omega
      · rw [if_neg hcond] at hsnd
        rw [hsnd] at hih
        omega

/-- With an always-false compatibility test (the snapshot is empty) every
processed neighbour ends empty. -/
theorem processAdj_all_empty
    (hS : ∀ (q : Grid.Idx) (t : α), compat S p q t = false) :
    ∀ (qs : List Grid.Idx) (g : Grid.GridL (List α)) (stack : List Grid.Idx)
      (g₁ : Grid.GridL (List α)) (st₁ : List Grid.Idx),
      processAdj missing compat S p qs g stack = .ok (g₁, st₁) →
      ∀ q ∈ qs, Grid.get g₁ q = some [] := by
  intro qs
  induction qs with
  | nil =>
    intro g stack g₁ st₁ h q hq
    cases hq
  | cons q₀ qs ih =>
    intro g stack g₁ st₁ h q hq
    cases hget : Grid.get g q₀ with
    | none => rw [processAdj, hget] at h; cases h
    | some cell =>
      rw [processAdj, hget] at h
      rcases List.mem_cons.mp hq with rfl | hqs
      · have hfst := pruneCell_fst_all_false (fun t => compat S p q t) cell
          stack q (fun u _ => hS q u)
        refine processAdj_empty_persist missing compat S p _ _ _ _ _ q h ?_
        rw [hfst]
        exact Grid.get_setC_self [] hget
      · exact ih _ _ _ _ h q hqs

end ProcessLemmas

section LoopLemmas

variable {α : Type} [DecidableEq α] {ε : Type}
variable (missing : ε) (compat : List α → Grid.Idx → Grid.Idx → α → Bool)

/-- `adjacent` depends only on the grid's dimensions. -/
theorem Grid.adjacent_congr {β γ : Type} {g : Grid.GridL β} {g' : Grid.GridL γ}
    (hw : Grid.width g' = Grid.width g) (hh : Grid.height g' = Grid.height g)
    (p : Grid.Idx) : Grid.adjacent g' p = Grid.adjacent g p := by
  unfold Grid.adjacent
  rw [hw, hh]

/-- Termination of the propagation worklist: fuel exceeding the total
number of stored variants plus the stack size is never exhausted.  Each
pop either removes at least one variant (paying for every push) or pushes
nothing and shrinks the stack. -/
theorem propLoop_isSome_of_fuel :
    ∀ (fuel : Nat) (stack : List Grid.Idx) (g : Grid.GridL (List α)) (loops : Nat),
      Grid.totalLen g + stack.length < fuel →
      (propLoop missing compat fuel stack g loops).isSome = true := by
  intro fuel
  induction fuel with
  | zero => intro stack g loops h; omega
  | succ fuel ih =>
    intro stack g loops h
    cases stack with
    | nil => simp [propLoop]
    | cons p rest =>
      cases hget : Grid.get g p with
      | none => simp [propLoop, hget]
      | some S =>
        cases hproc : processAdj missing compat S p (Grid.adjacent g p) g rest with
        | error e => simp [propLoop, hget, hproc]
        | ok gs =>
          obtain ⟨g₁, st₁⟩ := gs
          simp only [propLoop, hget, hproc]
          apply ih
          have hms := processAdj_measure missing compat S p _ _ _ _ _ hproc
          simp only [List.length_cons] at h
          omega

/-- The propagation loop preserves the grid dimensions. -/
theorem propLoop_dims :
    ∀ (fuel : Nat) (stack : List Grid.Idx) (g : Grid.GridL (List α))
      (loops : Nat) (g' : Grid.GridL (List α)) (n : Nat),
      propLoop missing compat fuel stack g loops = some (.ok (g', n)) →
      Grid.width g' = Grid.width g ∧ Grid.height g' = Grid.height g := by
  intro fuel
  induction fuel with
  | zero =>
    intro stack g loops g' n h
    cases stack with
    | nil =>
      simp only [propLoop, Option.some.injEq, Except.ok.injEq,
        Prod.mk.injEq] at h
      rw [← h.1]
      exact ⟨rfl, rfl⟩
    | cons p rest => cases h
  | succ fuel ih =>
    intro stack g loops g' n h
    cases stack with
    | nil =>
      simp only [propLoop, Option.some.injEq, Except.ok.injEq,
        Prod.mk.injEq] at h
      rw [← h.1]
      exact ⟨rfl, rfl⟩
    | cons p rest =>
      cases hget : Grid.get g p with
      | none => simp [propLoop, hget] at h
      | some S =>
        cases hproc : processAdj missing compat S p (Grid.adjacent g p) g rest with
        | error e => simp [propLoop, hget, hproc] at h
        | ok gs =>
          obtain ⟨g₁, st₁⟩ := gs
          simp only [propLoop, hget, hproc] at h
          have h1 := ih _ _ _ _ _ h
          have h2 := processAdj_dims missing compat S p _ _ _ _ _ hproc
          exact ⟨h1.1.trans h2.1, h1.2.trans h2.2⟩

/-- The emptiness cascade: when the loop reaches its fixpoint, every
empty cell has only empty neighbours — provided every empty cell was
either on the stack or already surrounded by empty cells (vacuously true
when no cell is empty). -/
theorem propLoop_empty_inv
    (hcompat : ∀ (p q : Grid.Idx) (t : α), compat [] p q t = false) :
    ∀ (fuel : Nat) (stack : List Grid.Idx) (g : Grid.GridL (List α))
      (loops : Nat) (g' : Grid.GridL (List α)) (n : Nat),
      propLoop missing compat fuel stack g loops = some (.ok (g', n)) →
      (∀ r, Grid.get g r = some [] → r ∈ stack ∨
        ∀ q ∈ Grid.adjacent g r, Grid.get g q = some []) →
      ∀ r, Grid.get g' r = some [] →
        ∀ q ∈ Grid.adjacent g' r, Grid.get g' q = some [] := by
  intro fuel
  induction fuel with
  | zero =>
    intro stack g loops g' n h hInv r hr q hq
    cases stack with
    | nil =>
      simp only [propLoop, Option.some.injEq, Except.ok.injEq,
        Prod.mk.injEq] at h
      rw [← h.1] at hr hq ⊢
      rcases hInv r hr with hmem | hnb
      · cases hmem
      · exact hnb q hq
    | cons p rest => cases h
  | succ fuel ih =>
    intro stack g loops g' n h hInv r hr q hq
    cases stack with
    | nil =>
      simp only [propLoop, Option.some.injEq, Except.ok.injEq,
        Prod.mk.injEq] at h
      rw [← h.1] at hr hq ⊢
      rcases hInv r hr with hmem | hnb
      · cases hmem
      · exact hnb q hq
    | cons p rest =>
      cases hget : Grid.get g p with
      | none => simp [propLoop, hget] at h
      | some S =>
        cases hproc : processAdj missing compat S p (Grid.adjacent g p) g rest with
        | error e => simp [propLoop, hget, hproc] at h
        | ok gs =>
          obtain ⟨g₁, st₁⟩ := gs
          simp only [propLoop, hget, hproc] at h
          have hdims := processAdj_dims missing compat S p _ _ _ _ _ hproc
          refine ih _ _ _ _ _ h ?_ r hr q hq
          intro r' hr'
          obtain ⟨c, hc, hor⟩ :=
            processAdj_origin missing compat S p _ _ _ _ _ r' [] hproc hr'
          rcases hor with hceq | hmem
          · have hempty : Grid.get g r' = some [] := by rw [← hceq] at hc; exact hc
            rcases hInv r' hempty with hrs | hnb
            · rcases List.mem_cons.mp hrs with rfl | hrest
              · right
                have hS0 : S = [] := by
                  rw [hget] at hempty
                  exact Option.some.inj hempty
                subst hS0
                intro q' hq'
                have hadj : Grid.adjacent g₁ r' = Grid.adjacent g r' :=
                  Grid.adjacent_congr hdims.1 hdims.2 r'
                exact processAdj_all_empty missing compat [] r'
                  (fun a b => hcompat r' a b) _ _ _ _ _ hproc q' (hadj ▸ hq')
              · left
                exact processAdj_sub missing compat S p _ _ _ _ _ hproc hrest
            · right
              intro q' hq'
              have hadj : Grid.adjacent g₁ r' = Grid.adjacent g r' :=
                Grid.adjacent_congr hdims.1 hdims.2 r'
              exact processAdj_empty_persist missing compat S p _ _ _ _ _ q'
                hproc (hnb q' (hadj ▸ hq'))
          · left
            exact hmem

end LoopLemmas

section CascadeSupport

variable {α : Type}

/-- A cell present in the grid appears in the row-major enumeration. -/
theorem Grid.get_mem_enumerate {g : Grid.GridL α} {p : Grid.Idx} {c : α}
    (h : Grid.get g p = some c) : (p, c) ∈ Grid.enumerate g := by
  obtain ⟨hinc, row, hrow, hc⟩ := Grid.get_eq_some_iff.mp h
  unfold Grid.enumerate
  apply List.mem_flatMap.mpr
  refine ⟨(p.2, row), List.mk_mem_enum_iff_get?.mpr hrow, ?_⟩
  apply List.mem_map.mpr
  exact ⟨(p.1, c), List.mk_mem_enum_iff_get?.mpr hc, rfl⟩

/-- Walking an emptiness-closed grid from an empty cell to the origin:
neighbours with a smaller coordinate sum are empty as well, so `(0, 0)` is
empty. -/
theorem empty_walk {g : Grid.GridL (List α)}
    (hprop : ∀ r, Grid.get g r = some [] →
      ∀ q ∈ Grid.adjacent g r, Grid.get g q = some []) :
    ∀ (n : Nat) (p : Grid.Idx), p.1 + p.2 = n → Grid.get g p = some [] →
      Grid.get g (0, 0) = some [] := by
  intro n
  induction n using Nat.strong_induction_on with
  | _ n ih =>
    intro p hsum hp
    rcases p with ⟨a, b⟩
    by_cases h0 : a = 0 ∧ b = 0
    · obtain ⟨rfl, rfl⟩ := h0
      exact hp
    · have hinc : Grid.includes g (a, b) := (Grid.get_eq_some_iff.mp hp).1
      have hw : a < Grid.width g := hinc.1
      have hh : b < Grid.height g := hinc.2
      by_cases ha : 0 < a
      · have hqmem : ((a - 1, b) : Grid.Idx) ∈ Grid.adjacent g (a, b) := by
          simp only [Grid.adjacent, List.mem_filter, List.mem_cons,
            List.not_mem_nil, or_false, decide_eq_true_eq, Prod.ext_iff,
            ne_eq, true_or, or_true, true_and, and_true]
          omega
        have hq_empty := hprop (a, b) hp (a - 1, b) hqmem
        have hlt : (a - 1) + b < n := by simp only at hsum; omega
        exact ih ((a - 1) + b) hlt (a - 1, b) rfl hq_empty
      · have hb : 0 < b := by
          rcases Nat.eq_zero_or_pos a with rfl | hpos
          · rcases Nat.eq_zero_or_pos b with rfl | hpos'
            · exact absurd ⟨rfl, rfl⟩ h0
            · exact hpos'
          · exact absurd hpos ha
        have hqmem : ((a, b - 1) : Grid.Idx) ∈ Grid.adjacent g (a, b) := by
          simp only [Grid.adjacent, List.mem_filter, List.mem_cons,
            List.not_mem_nil, or_false, decide_eq_true_eq, Prod.ext_iff,
            ne_eq, true_or, or_true, true_and, and_true]
          omega
        have hq_empty := hprop (a, b) hp (a, b - 1) hqmem
        have hlt : a + (b - 1) < n := by simp only at hsum; omega
        exact ih (a + (b - 1)) hlt (a, b - 1) rfl hq_empty

end CascadeSupport

/-- The length of `Vec::dedup`'s auxiliary pass never exceeds the input. -/
theorem dedupAux_length_le {α : Type} [DecidableEq α] (prev : α) :
    ∀ l : List α, (dedupAux prev l).length ≤ l.length := by
  intro l
  induction l generalizing prev with
  | nil => simp [dedupAux]
  | cons b rest ih =>
    rw [dedupAux]
    split
    · exact Nat.le_trans (ih prev) (by simp)
    · simpa using ih b

/-- `Vec::dedup` never lengthens the list. -/
theorem dedupConsec_length_le {α : Type} [DecidableEq α] (l : List α) :
    (dedupConsec l).length ≤ l.length := by
  cases l with
  | nil => simp [dedupConsec]
  | cons a rest =>
    rw [dedupConsec]
    simpa using dedupAux_length_le a rest

/-- The initial grid stores `h * (w * |dedup catalog|)` variants. -/
theorem totalLen_newWith {α : Type} (w h : Nat) (v : List α) :
    Grid.totalLen (Grid.newWith w h v) = h * (w * v.length) := by
  rw [Grid.newWith, Grid.totalLen]
  rw [List.map_replicate, List.sum_replicate, List.map_replicate,
    List.sum_replicate]
  simp [smul_eq_mul]

/-- Claim C4: the propagation worklist loop terminates for every grid and
catalog — in both implementations — with fuel `totalLen + 2`, because
every pop either removes at least one variant from some neighbour before
pushing it, or pushes nothing; the total variant count of a fresh
generator is at most `w * h * |catalog|`. -/
theorem c4_propogate_terminates :
    (∀ (g : Gen.Generator) (pos : Grid.Idx),
      (propLoop Gen.Error.missingSet Gen.compat
        (Grid.totalLen g + 2) [pos] g 0).isSome = true) ∧
    (∀ (g : Legacy.Generator) (pos : Grid.Idx),
      (propLoop Legacy.Error.missingSet Legacy.compat
        (Grid.totalLen g + 2) [pos] g 0).isSome = true) ∧
    (∀ (w h : Nat) (tiles : List Gen.TransformedTile),
      Grid.totalLen (Gen.Generator.new w h tiles) ≤ w * h * tiles.length) := by
  refine ⟨?_, ?_, ?_⟩
  · intro g pos
    apply propLoop_isSome_of_fuel
    simp
  · intro g pos
    apply propLoop_isSome_of_fuel
    simp
  · intro w h tiles
    rw [Gen.Generator.new, totalLen_newWith]
    calc h * (w * (dedupConsec tiles).length)
        ≤ h * (w * tiles.length) :=
          Nat.mul_le_mul_left h (Nat.mul_le_mul_left w (dedupConsec_length_le tiles))
      _ = w * h * tiles.length := by ring

/-- Unfolding the fuelled `propogate` wrapper: a successful result comes
from the worklist loop itself (the fuel provably suffices). -/
theorem Gen.propogate_ok_propLoop {g : Gen.Generator} {pos : Grid.Idx}
    {g₂ : Gen.Generator} {n : Nat}
    (h : Gen.Generator.propogate g pos = .ok (g₂, n)) :
    propLoop Gen.Error.missingSet Gen.compat (Grid.totalLen g + 2) [pos] g 0 =
      some (.ok (g₂, n)) := by
  have hs := propLoop_isSome_of_fuel Gen.Error.missingSet Gen.compat
    (Grid.totalLen g + 2) [pos] g 0 (by simp)
  obtain ⟨inner, hin⟩ := Option.isSome_iff_exists.mp hs
  rw [Gen.Generator.propogate, hin, Option.getD_some] at h
  rw [hin, h]

/-- Inverting a successful generation `collapse`: the written cell is the
singleton of the drawn variant. -/
theorem Gen.collapse_ok_shape {g : Gen.Generator} {pos : Grid.Idx}
    {rng rng₂ : Rng} {g₁ : Gen.Generator}
    (h : Gen.Generator.collapse g pos rng = .ok (g₁, rng₂)) :
    ∃ set t, Grid.get g pos = some set ∧ g₁ = Grid.setC g pos [t] := by
  rw [Gen.Generator.collapse] at h
  cases hget : Grid.get g pos with
  | none => rw [hget] at h; cases h
  | some set =>
    rw [hget] at h
    simp only at h
    by_cases hemp : set.isEmpty
    · rw [if_pos hemp] at h; cases h
    · rw [if_neg hemp] at h
      by_cases hw : (set.map (fun t => t.tile.weight)).sum = 0
      · rw [if_pos hw] at h; cases h
      · rw [if_neg hw] at h
        cases hidx : set.get? (pickIndex (set.map (fun t => t.tile.weight))
            (genRange (set.map (fun t => t.tile.weight)).sum rng).1) with
        | none => rw [hidx] at h; cases h
        | some t =>
          rw [hidx] at h
          simp only [Except.ok.injEq, Prod.mk.injEq] at h
          exact ⟨set, t, rfl, h.1.symm⟩

/-- A successful generation `collapse` of a grid without empty cells
leaves no empty cell: the collapsed cell becomes a singleton and the rest
are untouched. -/
theorem Gen.collapse_no_empty {g : Gen.Generator} {pos : Grid.Idx}
    {rng rng₂ : Rng} {g₁ : Gen.Generator}
    (hpre : ∀ r, Grid.get g r = some [] → False)
    (h : Gen.Generator.collapse g pos rng = .ok (g₁, rng₂)) :
    ∀ r, Grid.get g₁ r = some [] → False := by
  obtain ⟨set, t, hget, hg₁⟩ := Gen.collapse_ok_shape h
  intro r hr
  by_cases hrq : r = pos
  · subst hrq
    rw [hg₁, Grid.get_setC_self [t] hget] at hr
    cases Option.some.inj hr
  · rw [hg₁, Grid.get_setC_ne _ hrq] at hr
    exact hpre r hr

/-- An empty cell at the origin is seen even by the first-row-only
iterator behind `is_any_empty`. -/
theorem Gen.isAnyEmpty_of_origin {g : Gen.Generator}
    (h : Grid.get g (0, 0) = some []) :
    Gen.Generator.isAnyEmpty g = true := by
  obtain ⟨hinc, row, hrow, hc⟩ := Grid.get_eq_some_iff.mp h
  rw [Gen.Generator.isAnyEmpty, gridIter_eq_headD]
  have hhead : g.headD [] = row := by
    cases g with
    | nil => cases hrow
    | cons r rest =>
      simp only [List.get?_cons_zero, Option.some.injEq] at hrow
      rw [hrow]
      rfl
  rw [hhead]
  apply List.any_eq_true.mpr
  exact ⟨[], List.get?_mem hc, by simp⟩

/-- The legacy `is_any_empty` (full row-major iterator) sees any empty
cell. -/
theorem Legacy.isAnyEmpty_of_get {g : Legacy.Generator} {p : Grid.Idx}
    (h : Grid.get g p = some []) :
    Legacy.Generator.isAnyEmpty g = true := by
  rw [Legacy.Generator.isAnyEmpty]
  apply List.any_eq_true.mpr
  exact ⟨(p, []), Grid.get_mem_enumerate h, by simp⟩

/-- Claim C2: whenever an iteration of the solver (a collapse followed by
propagation, starting from a reachable state: one with no empty cell yet)
leaves any cell of the grid empty — at any position, not only in the first
row — `run` returns `Err(EmptySet)`, and likewise the legacy `step`.  For
the generation implementation this holds despite `is_any_empty` examining
only the first row, because an empty cell always cascades through
propagation until the whole connected grid (in particular cell `(0,0)`)
is empty. -/
theorem c2_empty_set_detected :
    (∀ (fuel : Nat) (g : Gen.Generator) (rng rng₁ rng₂ : Rng)
      (pos p : Grid.Idx) (g₁ g₂ : Gen.Generator) (n : Nat),
      (Grid.enumerate g).all (fun pv => !pv.2.isEmpty) = true →
      Gen.Generator.isCollapsed g = false →
      Gen.Generator.nextIndex g rng = .ok (pos, rng₁) →
      Gen.Generator.collapse g pos rng₁ = .ok (g₁, rng₂) →
      Gen.Generator.propogate g₁ pos = .ok (g₂, n) →
      Grid.get g₂ p = some [] →
      Gen.Generator.runFuel (fuel + 1) g rng = some (.error .emptySet)) ∧
    (∀ (g : Legacy.Generator) (rng rng₁ rng₂ : Rng) (pos p : Grid.Idx)
      (g₁ g₂ : Legacy.Generator) (n : Nat),
      Legacy.Generator.nextPosition g rng = .ok (pos, rng₁) →
      Legacy.Generator.collapse g pos rng₁ = .ok (g₁, rng₂) →
      Legacy.Generator.propogate g₁ pos = .ok (g₂, n) →
      Grid.get g₂ p = some [] →
      Legacy.Generator.step g rng = .error .emptySet) := by
  constructor
  · intro fuel g rng rng₁ rng₂ pos p g₁ g₂ n hpre hcol hnext hcoll hprop hp
    have hpre' : ∀ r, Grid.get g r = some [] → False := by
      intro r hr
      have hmem := Grid.get_mem_enumerate hr
      have := List.all_eq_true.mp hpre _ hmem
      simp at this
    have hg₁ := Gen.collapse_no_empty hpre' hcoll
    have hploop := Gen.propogate_ok_propLoop hprop
    have hfix := propLoop_empty_inv Gen.Error.missingSet Gen.compat
      (fun _ _ _ => rfl) _ _ _ _ _ _ hploop
      (fun r hr => (hg₁ r hr).elim)
    have hwalk := empty_walk hfix (p.1 + p.2) p rfl hp
    have hany := Gen.isAnyEmpty_of_origin hwalk
    have hcol' : ¬ (Gen.Generator.isCollapsed g = true) := by
      rw [hcol]
      exact Bool.false_ne_true
    simp only [Gen.Generator.runFuel, if_neg hcol', hnext, hcoll, hprop,
      hany, if_true]
  · intro g rng rng₁ rng₂ pos p g₁ g₂ n hnext hcoll hprop hp
    have hany := Legacy.isAnyEmpty_of_get hp
    simp only [Legacy.Generator.step, hnext, hcoll, hprop, hany, if_true]

/-- Witness for C2: the generation side on the 1 × 2 grid over the
vertically unsatisfiable catalog `[vA, vB]`, the legacy side on the
matching 2 × 1 legacy scenario; in both, propagation empties every cell
and the empty cell `p` picked is outside the first row (resp. the
rightmost cell). -/
theorem c2_empty_set_detected_witness :
    ((Grid.enumerate (Gen.Generator.new 1 2 [Examples.vA, Examples.vB])).all
        (fun pv => !pv.2.isEmpty) = true ∧
      Gen.Generator.isCollapsed
        (Gen.Generator.new 1 2 [Examples.vA, Examples.vB]) = false ∧
      Gen.Generator.nextIndex (Gen.Generator.new 1 2 [Examples.vA, Examples.vB])
        [0, 0] = .ok ((0, 0), [0]) ∧
      Gen.Generator.collapse (Gen.Generator.new 1 2 [Examples.vA, Examples.vB])
        (0, 0) [0] = .ok ([[[Examples.vA]], [[Examples.vA, Examples.vB]]], []) ∧
      Gen.Generator.propogate
        ([[[Examples.vA]], [[Examples.vA, Examples.vB]]] : Gen.Generator)
        (0, 0) = .ok ([[[]], [[]]], 3) ∧
      Grid.get ([[[]], [[]]] : Gen.Generator) (0, 1) = some [] ∧
      Gen.Generator.runFuel 1 (Gen.Generator.new 1 2 [Examples.vA, Examples.vB])
        [0, 0] = some (.error .emptySet)) ∧
    (Legacy.Generator.nextPosition (Legacy.Generator.new [Examples.lA, Examples.lB] 2 1)
        [0, 0] = .ok ((0, 0), [0]) ∧
      Legacy.Generator.collapse (Legacy.Generator.new [Examples.lA, Examples.lB] 2 1)
        (0, 0) [0] = .ok ([[[Examples.lA], [Examples.lA, Examples.lB]]], []) ∧
      Legacy.Generator.propogate
        ([[[Examples.lA], [Examples.lA, Examples.lB]]] : Legacy.Generator)
        (0, 0) = .ok ([[[], []]], 3) ∧
      Grid.get ([[[], []]] : Legacy.Generator) (1, 0) = some [] ∧
      Legacy.Generator.step (Legacy.Generator.new [Examples.lA, Examples.lB] 2 1)
        [0, 0] = .error .emptySet) :=
  ⟨⟨by decide, by decide, rfl, rfl, rfl, rfl,
    c2_empty_set_detected.1 0 (Gen.Generator.new 1 2 [Examples.vA, Examples.vB])
      [0, 0] [0] [] (0, 0) (0, 1)
      [[[Examples.vA]], [[Examples.vA, Examples.vB]]] [[[]], [[]]] 3
      (by decide) (by decide) rfl rfl rfl rfl⟩,
   ⟨rfl, rfl, rfl, rfl,
    c2_empty_set_detected.2 (Legacy.Generator.new [Examples.lA, Examples.lB] 2 1)
      [0, 0] [0] [] (0, 0) (1, 0)
      [[[Examples.lA], [Examples.lA, Examples.lB]]] [[[], []]] 3
      rfl rfl rfl rfl⟩⟩
